import Mathlib

/-!
Verification development for the sharded streaming/batching pipeline of
src/translation/sharded_dataset.py (classes ShardedCSVDataset and
ShardedBatchedIterator).

The embedding models the Python state machine explicitly: the mutable
object state of ShardedCSVDataset becomes a structure that is threaded
through a step function, Python exceptions become an explicit result type,
and the file-system side effects (open/close of shard file handles) are
emitted as an event list so that resource discipline can be stated.
A shard file is modelled by its path together with the two observations
the code makes of it: its physical line count (returned by the external
line-count utility) and the row list produced by the csv parser.
-/

/-- Errors the Python code in sharded_dataset.py can raise
(StopIteration is a normal termination signal and is modelled separately). -/
inductive PyErr where
  | indexError
  | keyError
  | nameError
  | attributeError
  deriving DecidableEq, Repr

/-- Result of one call to ShardedCSVDataset.__next__ : a pair,
a StopIteration (end of stream), or a raised error. -/
inductive StepResult where
  | ok (p : String × String)
  | stop
  | err (e : PyErr)
  deriving DecidableEq, Repr

/-- File-handle events emitted by the reader: opening and closing shard files. -/
inductive FileEvent where
  | openedF (path : String)
  | closedF (path : String)
  deriving DecidableEq, Repr

/-- A Python file object: its path and whether the handle is still open.
close() flips isOpen; the object itself persists. -/
structure FileHandle where
  fpath : String
  isOpen : Bool
  deriving DecidableEq, Repr

/-- A shard file of the directory, modelled by the two observations the code
makes of it: `numLines`, the physical line count, and `parsed`, the row list
(each row a list of string fields) that the csv parser produces from it. -/
structure ShardFile where
  path : String
  numLines : Nat
  parsed : List (List String)
  deriving DecidableEq, Repr

/-- Modelled from the spec: the line-count utility `get_num_lines` (module
utils is not under src/). Per the spec it is an external collaborator that,
given a file path, returns a non-negative integer line count; here it reads
the `numLines` observation of the shard file. -/
def get_num_lines (f : ShardFile) : Nat := f.numLines

/-- The row list csv.reader produces for a shard file (csv is an external
library; its output on this file is the `parsed` observation). -/
def csvRows (f : ShardFile) : List (List String) := f.parsed

/-- Python list indexing `l[i]` with an Int index (negative indices count
from the end); `none` is an IndexError. -/
def pyListGet {α : Type} (l : List α) (i : Int) : Option α :=
  if 0 ≤ i then l.get? i.toNat
  else
    let j : Int := (l.length : Int) + i
    if 0 ≤ j then l.get? j.toNat else none

/-- One insertion into a Python dict (modelled as an assoc list in key
insertion order): an existing key has its value overwritten in place,
a new key is appended. -/
def pyDictInsert (d : List (String × Nat)) (k : String) (v : Nat) :
    List (String × Nat) :=
  if d.any (fun kv => kv.1 = k) then
    d.map (fun kv => if kv.1 = k then (k, v) else kv)
  else d ++ [(k, v)]

/-- The Python dict built from a list of key-value pairs
(dict comprehension: first-occurrence key order, last value wins). -/
def pyDictOf (l : List (String × Nat)) : List (String × Nat) :=
  l.foldl (fun d kv => pyDictInsert d kv.1 kv.2) []

/-- Python dict lookup `d[k]`; `none` is a KeyError. -/
def pyDictLookup (d : List (String × Nat)) (k : String) : Option Nat :=
  (d.find? (fun kv => kv.1 = k)).map Prod.snd

/-- The mutable state of a ShardedCSVDataset object, one field per Python
attribute set in __init__, plus `rngCtr`, the number of draws made so far
from the random generator (random.shuffle consumes one draw per call). -/
structure ShardedCSVDataset where
  sharded_files : List ShardFile
  shuffle : Bool
  file_counts : List (String × Nat)
  curr_file : Option FileHandle
  curr_file_name : Option String
  curr_idx : Nat
  curr_data : List (String × String)
  shard_idx : Int
  rngCtr : Nat
  deriving DecidableEq, Repr

/-- ShardedCSVDataset.__init__ : list the directory (the `files` argument is
the directory listing joined with the directory path), shuffle the shard
order when requested (`σfiles` is the permutation random.shuffle applies),
and pre-scan every shard's line count into the `file_counts` dict. -/
def mkShardedCSVDataset (σfiles : List ShardFile → List ShardFile)
    (files : List ShardFile) (shuffle : Bool) : ShardedCSVDataset :=
  let fs := if shuffle then σfiles files else files
  { sharded_files := fs
    shuffle := shuffle
    file_counts := pyDictOf (fs.map fun f => (f.path, get_num_lines f))
    curr_file := none
    curr_file_name := none
    curr_idx := 0
    curr_data := []
    shard_idx := -1
    rngCtr := 0 }

/-- ShardedCSVDataset.__len__ : the sum of the values of the file_counts dict. -/
def dsLen (st : ShardedCSVDataset) : Nat :=
  (st.file_counts.map Prod.snd).sum

/-- ShardedCSVDataset.reset : clear the handle reference, the name, both
indices and the materialized buffer; shard order, counts and the random
generator are untouched (and no close() is issued). -/
def dsReset (st : ShardedCSVDataset) : ShardedCSVDataset :=
  { st with
    curr_file := none
    curr_file_name := none
    curr_idx := 0
    curr_data := []
    shard_idx := -1 }

/-- `self.curr_file.close() if self.curr_file is not None else None` :
closing an absent or already-closed handle is a no-op; closing an open
handle marks it closed and emits the close event. -/
def closeCurrFile (st : ShardedCSVDataset) :
    ShardedCSVDataset × List FileEvent :=
  match st.curr_file with
  | none => (st, [])
  | some f =>
      if f.isOpen then
        ({ st with curr_file := some ⟨f.fpath, false⟩ }, [.closedF f.fpath])
      else (st, [])

/-- `[(row[0], row[1]) for row in reader]` : each row must supply fields 0
and 1, otherwise an IndexError aborts the comprehension at the first bad
row; extra fields are ignored. -/
def materialize : List (List String) → Except PyErr (List (String × String))
  | [] => .ok []
  | row :: rest =>
    match row with
    | a :: b :: _ =>
      match materialize rest with
      | .ok rs => .ok ((a, b) :: rs)
      | .error e => .error e
    | _ => .error .indexError

/-- `val = self.curr_data[self.curr_idx]; self.curr_idx += 1; return val` :
an out-of-range index raises IndexError with the state unchanged. -/
def fetchRow (st : ShardedCSVDataset) : StepResult × ShardedCSVDataset :=
  match st.curr_data.get? st.curr_idx with
  | none => (.err .indexError, st)
  | some v => (.ok v, { st with curr_idx := st.curr_idx + 1 })

/-- The new-shard branch of ShardedCSVDataset.__next__ : close the current
handle, advance the shard index, signal StopIteration past the last shard,
otherwise open and materialize the next shard (shuffling its rows when
enabled, consuming one random draw) and fall through to the row fetch.
`σs i` is the permutation the i-th random.shuffle draw applies. -/
def advanceShard (σs : Nat → List (String × String) → List (String × String))
    (st : ShardedCSVDataset) :
    StepResult × ShardedCSVDataset × List FileEvent :=
  let c := closeCurrFile st
  let st1 := c.1
  let st2 := { st1 with shard_idx := st1.shard_idx + 1 }
  if st2.shard_idx ≥ (st2.sharded_files.length : Int) then
    (.stop, st2, c.2)
  else
    match pyListGet st2.sharded_files st2.shard_idx with
    | none => (.err .indexError, st2, c.2)
    | some file =>
      let st3 := { st2 with
        curr_file := some ⟨file.path, true⟩
        curr_file_name := some file.path
        curr_idx := 0 }
      let evs := c.2 ++ [.openedF file.path]
      match materialize (csvRows file) with
      | .error e => (.err e, st3, evs)
      | .ok rows =>
        let st4 :=
          if st3.shuffle then
            { st3 with curr_data := σs st3.rngCtr rows, rngCtr := st3.rngCtr + 1 }
          else { st3 with curr_data := rows }
        let r := fetchRow st4
        (r.1, r.2, evs)

/-- ShardedCSVDataset.__next__ : if no file is current, or the in-shard
index has reached the pre-scanned line count of the current file (looked
up by name in the file_counts dict), take the new-shard branch; otherwise
return the row at the current index. -/
def dsNext (σs : Nat → List (String × String) → List (String × String))
    (st : ShardedCSVDataset) :
    StepResult × ShardedCSVDataset × List FileEvent :=
  match st.curr_file with
  | none => advanceShard σs st
  | some _ =>
    match st.curr_file_name with
    | none => (.err .keyError, st, [])
    | some nm =>
      match pyDictLookup st.file_counts nm with
      | none => (.err .keyError, st, [])
      | some cnt =>
        if st.curr_idx ≥ cnt then advanceShard σs st
        else
          let r := fetchRow st
          (r.1, r.2, [])

/-- Run `n` consecutive __next__ calls, collecting results and file events. -/
def steps (σs : Nat → List (String × String) → List (String × String)) :
    Nat → ShardedCSVDataset →
    List StepResult × ShardedCSVDataset × List FileEvent
  | 0, st => ([], st, [])
  | n + 1, st =>
    let a := dsNext σs st
    let b := steps σs n a.2.1
    (a.1 :: b.1, b.2.1, a.2.2 ++ b.2.2)

/-- The pair list a well-formed shard materializes to (fields 0 and 1 of
each parsed row). -/
def pairsOf (f : ShardFile) : List (String × String) :=
  f.parsed.map (fun r => (r.getD 0 "", r.getD 1 ""))

/-- The rows the reader serves for shard `f` when the rng counter is `i` :
the materialized pairs, permuted by the i-th draw when shuffling. -/
def effRows (sh : Bool) (σs : Nat → List (String × String) → List (String × String))
    (i : Nat) (f : ShardFile) : List (String × String) :=
  if sh then σs i (pairsOf f) else pairsOf f

/-- Concatenation of the served rows of a shard list, threading the rng
counter (one draw per materialized shard when shuffling). -/
def effConcat (sh : Bool)
    (σs : Nat → List (String × String) → List (String × String)) :
    Nat → List ShardFile → List (String × String)
  | _, [] => []
  | i, f :: fs =>
    effRows sh σs i f ++ effConcat sh σs (if sh then i + 1 else i) fs

/-- Replay a file-event list over a ledger of currently open paths. -/
def applyEvent (acc : List String) : FileEvent → List String
  | .openedF p => p :: acc
  | .closedF p => acc.erase p

/-- Ledger of open paths after a run of events. -/
def applyEvents (acc : List String) (evs : List FileEvent) : List String :=
  evs.foldl applyEvent acc

/-- A shard file as the documented shard format produces it: every physical
line is one record and every record has at least the two expected fields,
and the file is non-empty. -/
def wellFormedShard (f : ShardFile) : Prop :=
  f.parsed.length = f.numLines ∧ 0 < f.numLines ∧ ∀ r ∈ f.parsed, 2 ≤ r.length

instance (f : ShardFile) : Decidable (wellFormedShard f) := by
  unfold wellFormedShard; infer_instance

/-- Modelled from the spec: module vocab is not under src/. Per the spec a
Vocabulary is a token-id bijection with reserved pad and unknown ids whose
word2idx lookup sends every token absent from the mapping to the unknown id;
only the interface the batch assembler touches is modelled. -/
structure Vocabulary where
  word2idx : String → Nat
  pad_id : Nat
  unk_id : Nat

/-- A torch tensor as the one behaviour used at line 135 produces it:
torch.Tensor(seq) builds a ONE-dimensional float tensor whose entries are
the elements of seq (it does not allocate by shape), and .long() casts the
entries to integers. -/
structure TorchTensor where
  shape : List Nat
  tdata : List Int
  deriving DecidableEq, Repr

/-- `torch.Tensor(xs).long()` for a sequence argument `xs`. -/
def torch_Tensor_long (xs : List Int) : TorchTensor :=
  { shape := [xs.length], tdata := xs }

/-- Iterating a Python string yields its characters one by one
(each as a one-character string). -/
def pyStrIter (s : String) : List String :=
  s.toList.map (fun c => String.mk [c])

/-- `[vocab.word2idx(word) for word in line]` where `line` is the raw text:
iterating the string visits characters, so each character is looked up. -/
def encodeLine (word2idx : String → Nat) (line : String) : List Nat :=
  (pyStrIter line).map word2idx

/-- Splitting a character list at spaces (empty fields preserved, matching
str.split-on-a-delimiter semantics). -/
def splitOnSpace : List Char → List (List Char)
  | [] => [[]]
  | c :: rest =>
    match splitOnSpace rest with
    | [] => [[]]
    | w :: ws => if c = ' ' then [] :: w :: ws else (c :: w) :: ws

/-- Modelled from the spec: the whitespace-delimited tokenization the spec
prescribes for batch assembly (consistent with vocabulary construction). -/
def whitespaceTokens (s : String) : List String :=
  (splitOnSpace s.toList).map (fun cs => String.mk cs)

/-- The mutable state of a ShardedBatchedIterator: the fields __init__
stores, verbatim and unvalidated. The underlying dataset object is shared
by reference; its state is threaded separately through sbiNext. -/
structure ShardedBatchedIterator where
  batch_size : Int
  data : ShardedCSVDataset
  en_vocab : Option Vocabulary
  fr_vocab : Option Vocabulary
  max_sequence_length : Int

/-- ShardedBatchedIterator.__init__ : store the five arguments; no
validation of any kind is performed and construction never fails. -/
def mkShardedBatchedIterator (batch_size : Int) (d : ShardedCSVDataset)
    (en_vocab fr_vocab : Option Vocabulary) (max_sequence_length : Int) :
    ShardedBatchedIterator :=
  { batch_size := batch_size
    data := d
    en_vocab := en_vocab
    fr_vocab := fr_vocab
    max_sequence_length := max_sequence_length }

/-- The module-level binding of the name `batch_size` in
sharded_dataset.py: the module defines no such global, so evaluating the
bare name `batch_size` in the while-loop condition raises a NameError. -/
def moduleBatchSize : Option Int := none

/-- Result of one ShardedBatchedIterator.__next__ call. -/
inductive BatchResult where
  | stop
  | err (e : PyErr)
  | batch (src trg : TorchTensor)
  deriving DecidableEq, Repr

/-- The code after the pull loop (lines 134-142): allocate via
torch.Tensor((count, max_sequence_length)).long(), which yields a 1-D
two-entry tensor; when count is zero the row loop body never runs and the
two junk tensors are returned, otherwise iteration 0 evaluates the
character-encoded row (an AttributeError if the vocabulary is None) and
then `src_tensor[0][:len(src[0])]` slices a 0-dimensional tensor, an
IndexError. -/
def sbiFinish (it : ShardedBatchedIterator) (src : List String)
    (count : Int) (st : ShardedCSVDataset) : BatchResult × ShardedCSVDataset :=
  let src_tensor := torch_Tensor_long [count, it.max_sequence_length]
  let trg_tensor := torch_Tensor_long [count, it.max_sequence_length]
  if count ≤ 0 then (.batch src_tensor trg_tensor, st)
  else
    match it.en_vocab with
    | none => (.err .attributeError, st)
    | some v =>
      let _ := encodeLine v.word2idx (src.headD "")
      (.err .indexError, st)

/-- The while loop of ShardedBatchedIterator.__next__ under a hypothetical
global binding B of the name `batch_size` (the fuel argument is B minus
count, so the loop structure is explicit): exit when curr is None or
count has reached B; otherwise append the pair and pull the next one with
bare next(), whose StopIteration (and any error) propagates out of
__next__, discarding the partial batch. -/
def sbiLoop (σs : Nat → List (String × String) → List (String × String))
    (it : ShardedBatchedIterator) :
    Nat → Option (String × String) → List String → List String → Int →
    ShardedCSVDataset → BatchResult × ShardedCSVDataset
  | 0, _, src, _, count, st => sbiFinish it src count st
  | _ + 1, none, src, _, count, st => sbiFinish it src count st
  | n + 1, some p, src, trg, count, st =>
    let src' := src ++ [p.1]
    let trg' := trg ++ [p.2]
    match dsNext σs st with
    | (.err e, st', _) => (.err e, st')
    | (.stop, st', _) => (.stop, st')
    | (.ok q, st', _) => sbiLoop σs it n (some q) src' trg' (count + 1) st'

/-- ShardedBatchedIterator.__next__ : pull one pair with
next(self.data, None) (StopIteration becomes None, errors propagate);
None means the assembler signals StopIteration; otherwise the while
condition `curr is not None and count < batch_size` is evaluated: with no
binding for the free name `batch_size` (gB = none) this raises NameError,
losing the pulled pair; under a hypothetical binding the loop runs. -/
def sbiNext (σs : Nat → List (String × String) → List (String × String))
    (gB : Option Int) (it : ShardedBatchedIterator)
    (st : ShardedCSVDataset) : BatchResult × ShardedCSVDataset :=
  match dsNext σs st with
  | (.err e, st1, _) => (.err e, st1)
  | (.stop, st1, _) => (.stop, st1)
  | (.ok p, st1, _) =>
    match gB with
    | none => (.err .nameError, st1)
    | some B => sbiLoop σs it (B.toNat) (some p) [] [] 0 st1

lemma foldl_pyDictInsert (l : List (String × Nat)) :
    ∀ acc : List (String × Nat), ((acc ++ l).map Prod.fst).Nodup →
    l.foldl (fun d kv => pyDictInsert d kv.1 kv.2) acc = acc ++ l := by
  induction l with
  | nil => intro acc _; simp
  | cons kv rest ih =>
    intro acc h
    have hk : kv.1 ∉ acc.map Prod.fst := by
      intro hmem
      have := (List.nodup_append.mp (by simpa using h)).2.2
      exact this hmem (by simp)
    have hins : pyDictInsert acc kv.1 kv.2 = acc ++ [kv] := by
      have : acc.any (fun x => x.1 = kv.1) = false := by
        simp only [List.any_eq_false, decide_eq_true_eq]
        intro x hx hx1
        exact hk (by simpa [hx1] using List.mem_map_of_mem Prod.fst hx)
      simp [pyDictInsert, this]
    have h' : (((acc ++ [kv]) ++ rest).map Prod.fst).Nodup := by
      simpa [List.append_assoc] using h
    calc (kv :: rest).foldl (fun d p => pyDictInsert d p.1 p.2) acc
        = rest.foldl (fun d p => pyDictInsert d p.1 p.2) (acc ++ [kv]) := by
          simp [List.foldl_cons, hins]
      _ = (acc ++ [kv]) ++ rest := ih (acc ++ [kv]) h'
      _ = acc ++ kv :: rest := by simp

lemma pyDictOf_nodup (l : List (String × Nat)) (h : (l.map Prod.fst).Nodup) :
    pyDictOf l = l := by
  simpa using foldl_pyDictInsert l [] (by simpa using h)

lemma pyDictLookup_mem (l : List (String × Nat)) (k : String) (v : Nat)
    (hnd : (l.map Prod.fst).Nodup) (hm : (k, v) ∈ l) :
    pyDictLookup l k = some v := by
  induction l with
  | nil => cases hm
  | cons x rest ih =>
    rw [List.map_cons, List.nodup_cons] at hnd
    by_cases hx : x.1 = k
    · have hxv : x = (k, v) := by
        rcases List.mem_cons.mp hm with h1 | h2
        · exact h1.symm
        · exfalso
          apply hnd.1
          rw [hx]
          exact List.mem_map_of_mem Prod.fst h2
      simp [pyDictLookup, List.find?_cons, hx, hxv]
    · have hm' : (k, v) ∈ rest := by
        rcases List.mem_cons.mp hm with h1 | h2
        · exact absurd (by rw [← h1]) hx
        · exact h2
      simpa [pyDictLookup, List.find?_cons, hx] using ih hnd.2 hm'

lemma pyDictLookup_counts (files : List ShardFile) (f : ShardFile)
    (hnd : (files.map ShardFile.path).Nodup) (hf : f ∈ files) :
    pyDictLookup (pyDictOf (files.map fun g => (g.path, get_num_lines g))) f.path
      = some f.numLines := by
  have hkeys : ((files.map fun g => (g.path, get_num_lines g)).map Prod.fst).Nodup := by
    simpa [List.map_map, Function.comp] using hnd
  rw [pyDictOf_nodup _ hkeys]
  exact pyDictLookup_mem _ _ _ hkeys
    (by simpa [get_num_lines] using List.mem_map_of_mem (fun g => (g.path, get_num_lines g)) hf)

lemma pyListGet_nat {α : Type} (l : List α) (n : Nat) :
    pyListGet l (n : Int) = l.get? n := by
  simp [pyListGet]

lemma materialize_wf (rows : List (List String)) (h : ∀ r ∈ rows, 2 ≤ r.length) :
    materialize rows = .ok (rows.map fun r => (r.getD 0 "", r.getD 1 "")) := by
  induction rows with
  | nil => rfl
  | cons row rest ih =>
    have hr : 2 ≤ row.length := h row (by simp)
    match row, hr with
    | a :: b :: t, _ =>
      have := ih (fun r hr' => h r (by simp [hr']))
      simp [materialize, this, List.getD]

lemma materialize_ok_length (rows : List (List String))
    (prs : List (String × String)) (h : materialize rows = .ok prs) :
    prs.length = rows.length := by
  induction rows generalizing prs with
  | nil => simp [materialize] at h; simp [← h]
  | cons row rest ih =>
    match row with
    | [] => simp [materialize] at h
    | [a] => simp [materialize] at h
    | a :: b :: t =>
      simp only [materialize] at h
      cases hrec : materialize rest with
      | error e => rw [hrec] at h; cases h
      | ok rs =>
        rw [hrec] at h
        cases h
        simpa using ih rs hrec

lemma materialize_error_eq (rows : List (List String)) (e : PyErr)
    (h : materialize rows = .error e) : e = .indexError := by
  induction rows generalizing e with
  | nil => simp [materialize] at h
  | cons row rest ih =>
    match row with
    | [] => simp [materialize] at h; exact h.symm
    | [a] => simp [materialize] at h; exact h.symm
    | a :: b :: t =>
      simp only [materialize] at h
      cases h2 : materialize rest with
      | error e2 => rw [h2] at h; cases h; exact ih _ h2
      | ok _ => rw [h2] at h; cases h

lemma materialize_error_iff (rows : List (List String)) :
    materialize rows = .error .indexError ↔ ∃ r ∈ rows, r.length < 2 := by
  induction rows with
  | nil => simp [materialize]
  | cons row rest ih =>
    match row with
    | [] =>
      simp [materialize]
    | [a] =>
      simp [materialize]
    | a :: b :: t =>
      cases hrec : materialize rest with
      | error e =>
        have he : e = .indexError := materialize_error_eq rest e hrec
        subst he
        constructor
        · intro _
          rcases ih.mp hrec with ⟨r, hr, hlen⟩
          exact ⟨r, by simp [hr], hlen⟩
        · intro _
          simp [materialize, hrec]
      | ok rs =>
        constructor
        · intro h
          simp [materialize, hrec] at h
        · intro ⟨r, hr, hlen⟩
          rcases List.mem_cons.mp hr with h1 | h2
          · subst h1; simp at hlen; omega
          · exact absurd (ih.mpr ⟨r, h2, hlen⟩) (by simp [hrec])

lemma pairsOf_length (f : ShardFile) : (pairsOf f).length = f.parsed.length := by
  simp [pairsOf]

/-- The fields of the reader that are fixed at construction. -/
def staticEq (st st' : ShardedCSVDataset) : Prop :=
  st'.sharded_files = st.sharded_files ∧ st'.file_counts = st.file_counts ∧
  st'.shuffle = st.shuffle

set_option maxHeartbeats 1000000 in
lemma dsNext_static (σs : Nat → List (String × String) → List (String × String))
    (st : ShardedCSVDataset) :
    staticEq st (dsNext σs st).2.1 ∧
    (st.shuffle = false → (dsNext σs st).2.1.rngCtr = st.rngCtr) := by
  rcases st with ⟨fs, sh, cnts, cf, cfn, ci, cd, si, rc⟩
  rcases cf with _ | ⟨p, o⟩ <;> cases sh <;> [skip; skip; cases o; cases o] <;>
    simp only [dsNext, advanceShard, closeCurrFile, fetchRow, staticEq] <;>
    (repeat' split) <;> simp_all

lemma steps_static (σs : Nat → List (String × String) → List (String × String))
    (n : Nat) (st : ShardedCSVDataset) :
    staticEq st (steps σs n st).2.1 ∧
    (st.shuffle = false → (steps σs n st).2.1.rngCtr = st.rngCtr) := by
  induction n generalizing st with
  | zero => exact ⟨⟨rfl, rfl, rfl⟩, fun _ => rfl⟩
  | succ n ih =>
    have h1 := dsNext_static σs st
    have h2 := ih (dsNext σs st).2.1
    simp only [steps]
    refine ⟨⟨?_, ?_, ?_⟩, ?_⟩
    · rw [h2.1.1, h1.1.1]
    · rw [h2.1.2.1, h1.1.2.1]
    · rw [h2.1.2.2, h1.1.2.2]
    · intro hsh
      rw [h2.2 (by rw [h1.1.2.2, hsh]), h1.2 hsh]

lemma steps_add (σs : Nat → List (String × String) → List (String × String))
    (a b : Nat) (st : ShardedCSVDataset) :
    steps σs (a + b) st =
      ((steps σs a st).1 ++ (steps σs b (steps σs a st).2.1).1,
       (steps σs b (steps σs a st).2.1).2.1,
       (steps σs a st).2.2 ++ (steps σs b (steps σs a st).2.1).2.2) := by
  induction a generalizing st with
  | zero => simp [steps]
  | succ a ih =>
    have : a + 1 + b = (a + b) + 1 := by omega
    rw [this]
    simp only [steps]
    rw [ih (dsNext σs st).2.1]
    simp [List.append_assoc]

/-- The reader state while shard `cur` (preceded by the shards `fsPre`) is
current: its handle open, its served rows in the buffer, `j` of them consumed. -/
def midState (fsPre : List ShardFile) (cur : ShardFile) (fsPost : List ShardFile)
    (sh : Bool) (counts : List (String × Nat)) (rc : Nat)
    (data : List (String × String)) (j : Nat) : ShardedCSVDataset :=
  { sharded_files := fsPre ++ cur :: fsPost
    shuffle := sh
    file_counts := counts
    curr_file := some ⟨cur.path, true⟩
    curr_file_name := some cur.path
    curr_idx := j
    curr_data := data
    shard_idx := (fsPre.length : Int)
    rngCtr := rc }

lemma dsNext_mid_fetch (σs : Nat → List (String × String) → List (String × String))
    (fsPre : List ShardFile) (cur : ShardFile) (fsPost : List ShardFile)
    (sh : Bool) (counts : List (String × Nat)) (rc : Nat)
    (data : List (String × String)) (j : Nat)
    (hcnt : pyDictLookup counts cur.path = some cur.numLines)
    (hj : j < cur.numLines) (hjd : j < data.length) :
    dsNext σs (midState fsPre cur fsPost sh counts rc data j) =
      (.ok (data.get ⟨j, hjd⟩),
       midState fsPre cur fsPost sh counts rc data (j + 1), []) := by
  simp only [dsNext, midState, fetchRow, hcnt]
  rw [if_neg (Nat.not_le.mpr hj)]
  have h1 : data[j]? = some (data.get ⟨j, hjd⟩) := by
    rw [List.getElem?_eq_getElem hjd]
    simp
  simp [h1, midState]

lemma dsNext_mid_overrun (σs : Nat → List (String × String) → List (String × String))
    (fsPre : List ShardFile) (cur : ShardFile) (fsPost : List ShardFile)
    (sh : Bool) (counts : List (String × Nat)) (rc : Nat)
    (data : List (String × String)) (j : Nat)
    (hcnt : pyDictLookup counts cur.path = some cur.numLines)
    (hj : j < cur.numLines) (hjd : data.length ≤ j) :
    dsNext σs (midState fsPre cur fsPost sh counts rc data j) =
      (.err .indexError, midState fsPre cur fsPost sh counts rc data j, []) := by
  simp only [dsNext, midState, fetchRow, hcnt]
  rw [if_neg (Nat.not_le.mpr hj)]
  have h1 : data[j]? = none := by
    rw [List.getElem?_eq_none_iff]
    exact hjd
  simp [h1, midState]

lemma dsNext_mid_stop (σs : Nat → List (String × String) → List (String × String))
    (fsPre : List ShardFile) (cur : ShardFile)
    (sh : Bool) (counts : List (String × Nat)) (rc : Nat)
    (data : List (String × String)) (j : Nat)
    (hcnt : pyDictLookup counts cur.path = some cur.numLines)
    (hj : cur.numLines ≤ j) :
    dsNext σs (midState fsPre cur [] sh counts rc data j) =
      (.stop,
       { midState fsPre cur [] sh counts rc data j with
           curr_file := some ⟨cur.path, false⟩
           shard_idx := (fsPre.length : Int) + 1 },
       [.closedF cur.path]) := by
  simp only [dsNext, midState, advanceShard, closeCurrFile]
  rw [hcnt]
  simp only [ge_iff_le, hj, if_true, if_pos hj]
  simp [midState, List.length_append, if_pos]

lemma dsNext_mid_advance (σs : Nat → List (String × String) → List (String × String))
    (fsPre : List ShardFile) (cur f' : ShardFile) (fsPost : List ShardFile)
    (sh : Bool) (counts : List (String × Nat)) (rc : Nat)
    (data : List (String × String)) (j : Nat)
    (prs : List (String × String)) (e : String × String)
    (hcnt : pyDictLookup counts cur.path = some cur.numLines)
    (hj : cur.numLines ≤ j)
    (hmat : materialize (csvRows f') = .ok prs)
    (he : (if sh then σs rc prs else prs).get? 0 = some e) :
    dsNext σs (midState fsPre cur (f' :: fsPost) sh counts rc data j) =
      (.ok e,
       midState (fsPre ++ [cur]) f' fsPost sh counts (if sh then rc + 1 else rc)
         (if sh then σs rc prs else prs) 1,
       [.closedF cur.path, .openedF f'.path]) := by
  have hnotstop : ¬ ((fsPre.length : Int) + 1 ≥
      ((fsPre ++ cur :: f' :: fsPost).length : Int)) := by
    simp only [List.length_append, List.length_cons]
    push_cast
    omega
  have hget : pyListGet (fsPre ++ cur :: f' :: fsPost) ((fsPre.length : Int) + 1)
      = some f' := by
    have h2 : ((fsPre.length : Int) + 1) = ((fsPre.length + 1 : Nat) : Int) := by omega
    rw [h2, pyListGet_nat]
    rw [List.get?_eq_getElem?, List.getElem?_append_right (by omega)]
    simp
  cases sh with
  | false =>
    have he' : prs[0]? = some e := by
      rw [← List.get?_eq_getElem?]
      simpa using he
    simp only [dsNext, midState, advanceShard, closeCurrFile, fetchRow, hcnt]
    simp [hj, hnotstop, hget, hmat, he', midState, List.append_assoc,
      List.length_append]
  | true =>
    have he' : (σs rc prs)[0]? = some e := by
      rw [← List.get?_eq_getElem?]
      simpa using he
    simp only [dsNext, midState, advanceShard, closeCurrFile, fetchRow, hcnt]
    simp [hj, hnotstop, hget, hmat, he', midState, List.append_assoc,
      List.length_append]

lemma steps_mid_fetch (σs : Nat → List (String × String) → List (String × String))
    (fsPre : List ShardFile) (cur : ShardFile) (fsPost : List ShardFile)
    (sh : Bool) (counts : List (String × Nat)) (rc : Nat)
    (hcnt : pyDictLookup counts cur.path = some cur.numLines) :
    ∀ (m j : Nat) (data : List (String × String)),
    data.length ≤ cur.numLines → j + m ≤ data.length →
    steps σs m (midState fsPre cur fsPost sh counts rc data j) =
      (((data.drop j).take m).map .ok,
       midState fsPre cur fsPost sh counts rc data (j + m), []) := by
  intro m
  induction m with
  | zero =>
    intro j data _ _
    simp [steps]
  | succ m ih =>
    intro j data hdl hjm
    have hjd : j < data.length := by omega
    have hj : j < cur.numLines := by omega
    rw [steps]
    rw [dsNext_mid_fetch σs fsPre cur fsPost sh counts rc data j hcnt hj hjd]
    rw [ih (j + 1) data hdl (by omega)]
    have harith : j + (m + 1) = (j + 1) + m := by omega
    simp [harith]
    have hjd' : j < (data.map StepResult.ok).length := by simpa using hjd
    rw [List.drop_eq_getElem_cons hjd']
    simp

/-- Total pre-scanned line count of a shard list. -/
def totLines (fs : List ShardFile) : Nat := (fs.map ShardFile.numLines).sum

lemma steps_one (σs : Nat → List (String × String) → List (String × String))
    (st : ShardedCSVDataset) :
    steps σs 1 st =
      ([(dsNext σs st).1], (dsNext σs st).2.1, (dsNext σs st).2.2) := by
  simp [steps]

lemma dsNext_fresh_stop (σs : Nat → List (String × String) → List (String × String))
    (sh : Bool) (counts : List (String × Nat)) :
    dsNext σs
      { sharded_files := [], shuffle := sh, file_counts := counts,
        curr_file := none, curr_file_name := none, curr_idx := 0, curr_data := [],
        shard_idx := -1, rngCtr := 0 } =
      (.stop,
       { sharded_files := [], shuffle := sh, file_counts := counts,
         curr_file := none, curr_file_name := none, curr_idx := 0, curr_data := [],
         shard_idx := 0, rngCtr := 0 }, []) := by
  simp [dsNext, advanceShard, closeCurrFile]

lemma dsNext_init_ok (σs : Nat → List (String × String) → List (String × String))
    (f0 : ShardFile) (rest : List ShardFile) (sh : Bool)
    (counts : List (String × Nat)) (prs : List (String × String))
    (e : String × String)
    (hmat : materialize (csvRows f0) = .ok prs)
    (he : (if sh then σs 0 prs else prs).get? 0 = some e) :
    dsNext σs
      { sharded_files := f0 :: rest, shuffle := sh, file_counts := counts,
        curr_file := none, curr_file_name := none, curr_idx := 0, curr_data := [],
        shard_idx := -1, rngCtr := 0 } =
      (.ok e,
       midState [] f0 rest sh counts (if sh then 1 else 0)
         (if sh then σs 0 prs else prs) 1,
       [.openedF f0.path]) := by
  have hget0 : pyListGet (f0 :: rest) 0 = some f0 := by
    rw [show (0 : Int) = ((0 : Nat) : Int) from rfl, pyListGet_nat]
    rfl
  have hpos : ¬ ((rest.length : Int) + 1 ≤ 0) := by omega
  cases sh with
  | false =>
    have he' : prs[0]? = some e := by
      rw [← List.get?_eq_getElem?]
      simpa using he
    simp only [dsNext, advanceShard, closeCurrFile, fetchRow]
    simp [hget0, hpos, hmat, he', midState]
  | true =>
    have he' : (σs 0 prs)[0]? = some e := by
      rw [← List.get?_eq_getElem?]
      simpa using he
    simp only [dsNext, advanceShard, closeCurrFile, fetchRow]
    simp [hget0, hpos, hmat, he', midState]

lemma drain_from_mid (σs : Nat → List (String × String) → List (String × String))
    (sh : Bool) (counts : List (String × Nat))
    (hσ : ∀ i l, (σs i l).Perm l) :
    ∀ (fsPost fsPre : List ShardFile) (cur : ShardFile) (rc : Nat)
      (data : List (String × String)) (j : Nat),
    (∀ f ∈ cur :: fsPost, pyDictLookup counts f.path = some f.numLines) →
    (∀ f ∈ fsPost, wellFormedShard f) →
    data.length = cur.numLines → j ≤ data.length →
    (steps σs ((data.length - j) + totLines fsPost + 1)
        (midState fsPre cur fsPost sh counts rc data j)).1 =
      ((data.drop j).map .ok) ++
        ((effConcat sh σs rc fsPost).map .ok) ++ [.stop] := by
  intro fsPost
  induction fsPost with
  | nil =>
    intro fsPre cur rc data j hLook hwf hdl hj
    have hcnt : pyDictLookup counts cur.path = some cur.numLines :=
      hLook cur (by simp)
    rw [show (data.length - j) + totLines [] + 1 = (data.length - j) + 1 by
      simp [totLines]]
    rw [steps_add]
    rw [steps_mid_fetch σs fsPre cur [] sh counts rc hcnt (data.length - j) j data
      (le_of_eq hdl) (by omega)]
    have hjfull : j + (data.length - j) = data.length := by omega
    rw [hjfull]
    rw [steps_one]
    rw [dsNext_mid_stop σs fsPre cur sh counts rc data data.length hcnt
      (le_of_eq hdl.symm)]
    have htake : (data.drop j).take (data.length - j) = data.drop j := by
      apply List.take_of_length_le
      simp
    simp [effConcat, htake]
  | cons f' fsPost' ih =>
    intro fsPre cur rc data j hLook hwf hdl hj
    have hcnt : pyDictLookup counts cur.path = some cur.numLines :=
      hLook cur (by simp)
    have hwf' : wellFormedShard f' := hwf f' (by simp)
    obtain ⟨hplen, hpos, hrows⟩ := hwf'
    have hmat : materialize (csvRows f') = .ok (pairsOf f') := by
      rw [csvRows]
      rw [materialize_wf f'.parsed hrows]
      rfl
    have hefflen : (if sh then σs rc (pairsOf f') else pairsOf f').length
        = f'.numLines := by
      cases sh with
      | false => simp [pairsOf, hplen]
      | true =>
        simp only [ite_true]
        rw [(hσ rc (pairsOf f')).length_eq]
        simp [pairsOf, hplen]
    have heffpos : 0 < (if sh then σs rc (pairsOf f') else pairsOf f').length := by
      omega
    have he : (if sh then σs rc (pairsOf f') else pairsOf f').get? 0 =
        some ((if sh then σs rc (pairsOf f') else pairsOf f').get ⟨0, heffpos⟩) :=
      List.get?_eq_get heffpos
    have hsplit : (data.length - j) + totLines (f' :: fsPost') + 1 =
        (data.length - j) + (1 + (((if sh then σs rc (pairsOf f') else pairsOf f').length - 1)
          + totLines fsPost' + 1)) := by
      simp only [totLines, List.map_cons, List.sum_cons]
      omega
    rw [hsplit, steps_add]
    rw [steps_mid_fetch σs fsPre cur (f' :: fsPost') sh counts rc hcnt
      (data.length - j) j data (le_of_eq hdl) (by omega)]
    have hjfull : j + (data.length - j) = data.length := by omega
    rw [hjfull]
    rw [steps_add]
    rw [steps_one]
    rw [dsNext_mid_advance σs fsPre cur f' fsPost' sh counts rc data data.length
      (pairsOf f') _ hcnt (le_of_eq hdl.symm) hmat he]
    have hih := ih (fsPre ++ [cur]) f' (if sh then rc + 1 else rc)
      (if sh then σs rc (pairsOf f') else pairsOf f') 1
      (fun f hf => hLook f (by simp at hf ⊢; tauto))
      (fun f hf => hwf f (by simp [hf]))
      hefflen (by omega)
    rw [hih]
    have hcons :
        ((if sh then σs rc (pairsOf f') else pairsOf f').get ⟨0, heffpos⟩) ::
          ((if sh then σs rc (pairsOf f') else pairsOf f').drop 1) =
        (if sh then σs rc (pairsOf f') else pairsOf f') := by
      have h2 := List.getElem_cons_drop
        (if sh then σs rc (pairsOf f') else pairsOf f') 0 heffpos
      simpa using h2
    have htake : (data.drop j).take (data.length - j) = data.drop j := by
      apply List.take_of_length_le
      simp
    rw [htake]
    simp only [effConcat, effRows]
    conv_rhs => rw [← hcons]
    simp [List.append_assoc]

lemma effConcat_length (sh : Bool)
    (σs : Nat → List (String × String) → List (String × String))
    (hσ : ∀ i l, (σs i l).Perm l) :
    ∀ (fs : List ShardFile) (i : Nat), (∀ f ∈ fs, wellFormedShard f) →
    (effConcat sh σs i fs).length = totLines fs := by
  intro fs
  induction fs with
  | nil => intro i _; simp [effConcat, totLines]
  | cons f fs' ih =>
    intro i hwf
    obtain ⟨hplen, _, _⟩ := hwf f (by simp)
    have hr : (effRows sh σs i f).length = f.numLines := by
      cases sh with
      | false => simp [effRows, pairsOf, hplen]
      | true =>
        simp only [effRows, ite_true]
        rw [(hσ i (pairsOf f)).length_eq]
        simp [pairsOf, hplen]
    simp only [effConcat, List.length_append, hr,
      ih (if sh then i + 1 else i) (fun g hg => hwf g (by simp [hg]))]
    simp [totLines]

lemma drain_of_mk (files : List ShardFile) (sh : Bool)
    (σfiles : List ShardFile → List ShardFile)
    (σs : Nat → List (String × String) → List (String × String))
    (hσ : ∀ i l, (σs i l).Perm l)
    (hnd : (((if sh then σfiles files else files)).map ShardFile.path).Nodup)
    (hwf : ∀ f ∈ (if sh then σfiles files else files), wellFormedShard f) :
    (steps σs (totLines (if sh then σfiles files else files) + 1)
        (mkShardedCSVDataset σfiles files sh)).1 =
      ((effConcat sh σs 0 (if sh then σfiles files else files)).map .ok)
        ++ [.stop] := by
  set fs := if sh then σfiles files else files with hfs
  have hmk : mkShardedCSVDataset σfiles files sh =
      { sharded_files := fs, shuffle := sh,
        file_counts := pyDictOf (fs.map fun f => (f.path, get_num_lines f)),
        curr_file := none, curr_file_name := none, curr_idx := 0,
        curr_data := [], shard_idx := -1, rngCtr := 0 } := rfl
  rw [hmk]
  cases hc : fs with
  | nil =>
    have h1 : totLines ([] : List ShardFile) + 1 = 1 := by simp [totLines]
    rw [h1, steps_one, dsNext_fresh_stop]
    simp [effConcat]
  | cons f0 rest =>
    rw [hc] at hnd hwf
    obtain ⟨hplen0, hpos0, hrows0⟩ := hwf f0 (by simp)
    have hmat0 : materialize (csvRows f0) = .ok (pairsOf f0) := by
      rw [csvRows, materialize_wf f0.parsed hrows0]
      rfl
    have hefflen0 : (if sh then σs 0 (pairsOf f0) else pairsOf f0).length
        = f0.numLines := by
      cases sh with
      | false => simp [pairsOf, hplen0]
      | true =>
        simp only [ite_true]
        rw [(hσ 0 (pairsOf f0)).length_eq]
        simp [pairsOf, hplen0]
    have heffpos0 : 0 < (if sh then σs 0 (pairsOf f0) else pairsOf f0).length := by
      omega
    have he0 := List.get?_eq_get heffpos0
    have hLook : ∀ f ∈ f0 :: rest,
        pyDictLookup (pyDictOf ((f0 :: rest).map fun f => (f.path, get_num_lines f)))
          f.path = some f.numLines :=
      fun f hf => pyDictLookup_counts (f0 :: rest) f hnd hf
    have hcount : totLines (f0 :: rest) + 1 =
        1 + (((if sh then σs 0 (pairsOf f0) else pairsOf f0).length - 1)
          + totLines rest + 1) := by
      simp only [totLines, List.map_cons, List.sum_cons] at *
      omega
    rw [hcount, steps_add, steps_one]
    rw [dsNext_init_ok σs f0 rest sh _ (pairsOf f0) _ hmat0 he0]
    rw [drain_from_mid σs sh _ hσ rest [] f0 (if sh then 1 else 0)
      (if sh then σs 0 (pairsOf f0) else pairsOf f0) 1 hLook
      (fun f hf => hwf f (by simp [hf])) hefflen0 (by omega)]
    have hcons0 :
        ((if sh then σs 0 (pairsOf f0) else pairsOf f0).get ⟨0, heffpos0⟩) ::
          ((if sh then σs 0 (pairsOf f0) else pairsOf f0).drop 1) =
        (if sh then σs 0 (pairsOf f0) else pairsOf f0) := by
      have h2 := List.getElem_cons_drop
        (if sh then σs 0 (pairsOf f0) else pairsOf f0) 0 heffpos0
      simpa using h2
    simp only [effConcat, effRows]
    conv_rhs => rw [← hcons0]
    simp [List.append_assoc]

lemma dsExt (a b : ShardedCSVDataset)
    (h1 : a.sharded_files = b.sharded_files)
    (h2 : a.shuffle = b.shuffle)
    (h3 : a.file_counts = b.file_counts)
    (h4 : a.curr_file = b.curr_file)
    (h5 : a.curr_file_name = b.curr_file_name)
    (h6 : a.curr_idx = b.curr_idx)
    (h7 : a.curr_data = b.curr_data)
    (h8 : a.shard_idx = b.shard_idx)
    (h9 : a.rngCtr = b.rngCtr) : a = b := by
  cases a
  cases b
  simp_all

example : pyDictOf [("a", 2), ("b", 3)] = [("a", 2), ("b", 3)] := by decide
example :
    (sbiNext (fun _ l => l) moduleBatchSize
      (mkShardedBatchedIterator 2 (mkShardedCSVDataset id [⟨"s", 1, [["x", "y"]]⟩] false)
        none none 5)
      (mkShardedCSVDataset id [⟨"s", 1, [["x", "y"]]⟩] false)).1 = .err .nameError := by
  decide
example : (steps (fun _ l => l) 1
    (mkShardedCSVDataset id [⟨"s", 0, []⟩] false)).1 = [.err .indexError] := by decide
example : (steps (fun _ l => l) 3
    (mkShardedCSVDataset id [⟨"s", 2, [["x", "y"], ["u", "v"]]⟩] false)).1 =
    [.ok ("x", "y"), .ok ("u", "v"), .stop] := by decide

/-- C1 (corrected): for every directory of shard files with distinct paths,
each of which is non-empty and well-formed (every physical line is one
record with at least the two expected fields, so row count equals line
count), a freshly constructed ShardedCSVDataset has length() equal to the
sum of the line counts, and exactly that many next() calls return a pair
before the stream signals end-of-stream, regardless of the shuffle setting. -/
theorem c1_amended (files : List ShardFile) (sh : Bool)
    (σfiles : List ShardFile → List ShardFile)
    (σs : Nat → List (String × String) → List (String × String))
    (hσf : ∀ l : List ShardFile, (σfiles l).Perm l)
    (hσ : ∀ (i : Nat) (l : List (String × String)), (σs i l).Perm l)
    (hnd : (files.map ShardFile.path).Nodup)
    (hwf : ∀ f ∈ files, wellFormedShard f) :
    dsLen (mkShardedCSVDataset σfiles files sh) = totLines files ∧
    (steps σs (totLines files + 1) (mkShardedCSVDataset σfiles files sh)).1 =
      ((effConcat sh σs 0 (if sh then σfiles files else files)).map .ok)
        ++ [.stop] ∧
    (effConcat sh σs 0 (if sh then σfiles files else files)).length
      = totLines files := by
  have hperm : (if sh then σfiles files else files).Perm files := by
    cases sh
    · simp
    · simpa using hσf files
  have hnd' : ((if sh then σfiles files else files).map ShardFile.path).Nodup :=
    ((hperm.map ShardFile.path).nodup_iff).mpr hnd
  have hwf' : ∀ f ∈ (if sh then σfiles files else files), wellFormedShard f :=
    fun f hf => hwf f (hperm.mem_iff.mp hf)
  have htot : totLines (if sh then σfiles files else files) = totLines files :=
    (hperm.map ShardFile.numLines).sum_eq
  refine ⟨?_, ?_, ?_⟩
  · show ((pyDictOf ((if sh then σfiles files else files).map
        fun f => (f.path, get_num_lines f))).map Prod.snd).sum = totLines files
    rw [pyDictOf_nodup _ (by simpa [List.map_map, Function.comp] using hnd')]
    rw [← htot]
    simp [totLines, List.map_map, Function.comp_def, get_num_lines]
  · rw [← htot]
    exact drain_of_mk files sh σfiles σs hσ hnd' hwf'
  · rw [← htot]
    exact effConcat_length sh σs hσ (if sh then σfiles files else files) 0 hwf'

/-- C1 witness: a two-shard directory with line counts [2, 1]: length() is 3
and the three next() calls return the three pairs before end-of-stream. -/
theorem c1_witness :
    dsLen (mkShardedCSVDataset id
      [⟨"a", 2, [["x", "y"], ["u", "v"]]⟩, ⟨"b", 1, [["p", "q"]]⟩] false)
      = totLines [⟨"a", 2, [["x", "y"], ["u", "v"]]⟩, ⟨"b", 1, [["p", "q"]]⟩] ∧
    (steps (fun _ l => l)
      (totLines [⟨"a", 2, [["x", "y"], ["u", "v"]]⟩, ⟨"b", 1, [["p", "q"]]⟩] + 1)
      (mkShardedCSVDataset id
        [⟨"a", 2, [["x", "y"], ["u", "v"]]⟩, ⟨"b", 1, [["p", "q"]]⟩] false)).1 =
      ((effConcat false (fun _ l => l) 0
        (if false then id [⟨"a", 2, [["x", "y"], ["u", "v"]]⟩, ⟨"b", 1, [["p", "q"]]⟩]
         else [⟨"a", 2, [["x", "y"], ["u", "v"]]⟩, ⟨"b", 1, [["p", "q"]]⟩])).map .ok)
        ++ [.stop] ∧
    (effConcat false (fun _ l => l) 0
      (if false then id [⟨"a", 2, [["x", "y"], ["u", "v"]]⟩, ⟨"b", 1, [["p", "q"]]⟩]
       else [⟨"a", 2, [["x", "y"], ["u", "v"]]⟩, ⟨"b", 1, [["p", "q"]]⟩])).length
      = totLines [⟨"a", 2, [["x", "y"], ["u", "v"]]⟩, ⟨"b", 1, [["p", "q"]]⟩] :=
  c1_amended [⟨"a", 2, [["x", "y"], ["u", "v"]]⟩, ⟨"b", 1, [["p", "q"]]⟩] false
    id (fun _ l => l) (fun l => List.Perm.refl l) (fun _ l => List.Perm.refl l)
    (by decide) (by decide)

/-- C1 counterexample: a directory holding a single empty shard file (0
physical lines). The claim requires the first next() call to signal
end-of-stream (after exactly 0 pairs); instead the code opens the shard,
materializes an empty row list, and raises IndexError. -/
theorem c1_counterexample :
    dsLen (mkShardedCSVDataset id [⟨"s", 0, []⟩] false) = 0 ∧
    (steps (fun _ l => l) 1 (mkShardedCSVDataset id [⟨"s", 0, []⟩] false)).1
      = [.err .indexError] := by
  decide

/-- C7 (confirmed): on a non-shuffled reader, reset() after any run restores
exactly the freshly constructed state - the shard order, the line-count
dict and the random generator are untouched while the handle, name, both
indices and the materialized buffer are cleared - and therefore a re-drain
reproduces the identical result sequence as the first drain. -/
theorem c7_reset_redrain (files : List ShardFile)
    (σfiles : List ShardFile → List ShardFile)
    (σs : Nat → List (String × String) → List (String × String)) (n : Nat) :
    dsReset (steps σs n (mkShardedCSVDataset σfiles files false)).2.1
      = mkShardedCSVDataset σfiles files false ∧
    (steps σs n (dsReset
        (steps σs n (mkShardedCSVDataset σfiles files false)).2.1)).1
      = (steps σs n (mkShardedCSVDataset σfiles files false)).1 := by
  obtain ⟨⟨h1, h2, h3⟩, h4⟩ :=
    steps_static σs n (mkShardedCSVDataset σfiles files false)
  have h5 := h4 rfl
  have hreset : dsReset (steps σs n (mkShardedCSVDataset σfiles files false)).2.1
      = mkShardedCSVDataset σfiles files false := by
    apply dsExt
    · exact h1
    · exact h3
    · exact h2
    · rfl
    · rfl
    · rfl
    · rfl
    · rfl
    · exact h5
  exact ⟨hreset, by rw [hreset]⟩

/-- C5 counterexample: the shard row ["a","b","c"] does not parse into
exactly two fields, yet materializing the shard succeeds - the row is
silently truncated to its first two fields and served as a pair - so no
MalformedRecord-style failure carrying path and row index occurs. -/
theorem c5_counterexample :
    (steps (fun _ l => l) 1
      (mkShardedCSVDataset id [⟨"s", 1, [["a", "b", "c"]]⟩] false)).1
      = [.ok ("a", "b")] ∧
    materialize [["a", "b", "c"]] = .ok [("a", "b")] :=
  ⟨by decide, rfl⟩

/-- C5 (amended): materializing a shard fails exactly when some row has
fewer than two fields, and then with a bare IndexError carrying neither
shard path nor row index; rows with two or more fields always succeed,
extra fields silently dropped. -/
theorem c5_amended (rows : List (List String)) :
    (materialize rows = .error .indexError ↔ ∃ r ∈ rows, r.length < 2) ∧
    ((∀ r ∈ rows, 2 ≤ r.length) →
      materialize rows = .ok (rows.map fun r => (r.getD 0 "", r.getD 1 ""))) ∧
    (∀ e : PyErr, materialize rows = .error e → e = .indexError) :=
  ⟨materialize_error_iff rows, materialize_wf rows,
   fun e h => materialize_error_eq rows e h⟩

/-- C5 witness: a one-field row aborts materialization with IndexError; a
three-field row is truncated to its first two fields. -/
theorem c5_witness :
    materialize [["a"]] = .error .indexError ∧
    materialize [["a", "b", "c"], ["x", "y"]] = .ok [("a", "b"), ("x", "y")] :=
  ⟨(c5_amended [["a"]]).1.mpr ⟨["a"], by simp, by simp⟩,
   (c5_amended [["a", "b", "c"], ["x", "y"]]).2.1 (by decide)⟩

/-- C6 counterexample: constructing the batch assembler with batch size 0,
no vocabularies and max sequence length -1 succeeds, storing the invalid
configuration verbatim; no ConfigurationError is raised at construction. -/
theorem c6_counterexample :
    (mkShardedBatchedIterator 0 (mkShardedCSVDataset id [] false)
      none none (-1)).batch_size = 0 ∧
    (mkShardedBatchedIterator 0 (mkShardedCSVDataset id [] false)
      none none (-1)).max_sequence_length = -1 ∧
    (mkShardedBatchedIterator 0 (mkShardedCSVDataset id [] false)
      none none (-1)).en_vocab = none :=
  ⟨rfl, rfl, rfl⟩

/-- C6 (amended): the constructor performs no validation at all: every batch
size, dataset, vocabulary option and max sequence length is accepted and
stored verbatim, and construction never fails; invalid configuration
surfaces only when a batch is first requested. -/
theorem c6_amended (b : Int) (d : ShardedCSVDataset)
    (en fr : Option Vocabulary) (L : Int) :
    (mkShardedBatchedIterator b d en fr L).batch_size = b ∧
    (mkShardedBatchedIterator b d en fr L).data = d ∧
    (mkShardedBatchedIterator b d en fr L).en_vocab = en ∧
    (mkShardedBatchedIterator b d en fr L).fr_vocab = fr ∧
    (mkShardedBatchedIterator b d en fr L).max_sequence_length = L :=
  ⟨rfl, rfl, rfl, rfl, rfl⟩

/-- C2: the while-loop bound of ShardedBatchedIterator.__next__ reads the
free name batch_size, which has no binding in the module; on any stream
state that still yields a pair, the first __next__ call consumes that pair
and then raises NameError when the loop condition is evaluated, so the
loop is not bounded by the instance's configured batch size and no batch
is ever produced. -/
theorem c2_code_eval (σs : Nat → List (String × String) → List (String × String))
    (it : ShardedBatchedIterator) (st : ShardedCSVDataset)
    (h : ∃ p, (dsNext σs st).1 = .ok p) :
    (sbiNext σs moduleBatchSize it st).1 = .err .nameError := by
  obtain ⟨p, hp⟩ := h
  simp only [sbiNext, moduleBatchSize]
  cases hd : dsNext σs st with
  | mk r rest =>
    rw [hd] at hp
    simp only at hp
    cases r with
    | ok q => rfl
    | stop => cases hp
    | err e => cases hp

/-- C2 witness: batch size 2, a one-pair stream: the call raises NameError. -/
theorem c2_witness :
    (sbiNext (fun _ l => l) moduleBatchSize
      (mkShardedBatchedIterator 2
        (mkShardedCSVDataset id [⟨"s", 1, [["x", "y"]]⟩] false) none none 5)
      (mkShardedCSVDataset id [⟨"s", 1, [["x", "y"]]⟩] false)).1
      = .err .nameError :=
  c2_code_eval (fun _ l => l) _ _ ⟨("x", "y"), by decide⟩

/-- C3: line 135 allocates via torch.Tensor((count, max_sequence_length)),
which builds a ONE-dimensional two-entry tensor holding the values count
and max_sequence_length - not a (count × max_sequence_length) matrix
pre-filled with the pad id - and the subsequent row-slice assignment on
that tensor raises IndexError, so the assembler never returns matrices of
the claimed shape. Evaluated at count 3 and max length 7, and at a pulled
batch of one pair. -/
theorem c3_code_eval :
    (torch_Tensor_long [3, 7]).shape = [2] ∧
    (torch_Tensor_long [3, 7]).shape ≠ [3, 7] ∧
    (torch_Tensor_long [3, 7]).tdata = [3, 7] ∧
    (sbiFinish (mkShardedBatchedIterator 2 (mkShardedCSVDataset id [] false)
        (some ⟨String.length, 0, 1⟩) none 7) ["ab"] 1
      (mkShardedCSVDataset id [] false)).1 = .err .indexError :=
  ⟨rfl, by decide, rfl, rfl⟩

/-- C4: the encoding loop iterates the raw text string - encoding one id
per character, including the space - rather than splitting the text into
whitespace-delimited tokens; on "ab cd" the claimed tokenization is
["ab", "cd"] but the code looks up the five characters. -/
theorem c4_code_eval :
    pyStrIter "ab cd" = ["a", "b", " ", "c", "d"] ∧
    whitespaceTokens "ab cd" = ["ab", "cd"] ∧
    pyStrIter "ab cd" ≠ whitespaceTokens "ab cd" ∧
    encodeLine String.length "ab cd" = [1, 1, 1, 1, 1] := by
  refine ⟨by decide, by decide, by decide, by decide⟩

/-- The multiset (as a list) of shard paths whose handle the reader state
still references as open. -/
def handleLedger (st : ShardedCSVDataset) : List String :=
  match st.curr_file with
  | none => []
  | some f => if f.isOpen then [f.fpath] else []

set_option maxHeartbeats 1000000 in
lemma dsNext_ledger (σs : Nat → List (String × String) → List (String × String))
    (st : ShardedCSVDataset) :
    applyEvents (handleLedger st) (dsNext σs st).2.2
      = handleLedger (dsNext σs st).2.1 := by
  rcases st with ⟨fs, sh, cnts, cf, cfn, ci, cd, si, rc⟩
  rcases cf with _ | ⟨p, o⟩ <;> cases sh <;> [skip; skip; cases o; cases o] <;>
    simp only [dsNext, advanceShard, closeCurrFile, fetchRow, handleLedger,
      applyEvents, applyEvent] <;>
    (repeat' split) <;>
    (try simp_all [applyEvents, applyEvent, handleLedger])
  all_goals subst_vars
  all_goals simp_all [applyEvents, applyEvent, handleLedger]

lemma steps_ledger (σs : Nat → List (String × String) → List (String × String))
    (n : Nat) (st : ShardedCSVDataset) :
    applyEvents (handleLedger st) (steps σs n st).2.2
      = handleLedger (steps σs n st).2.1 := by
  induction n generalizing st with
  | zero => simp [steps, applyEvents]
  | succ n ih =>
    simp only [steps]
    rw [applyEvents, List.foldl_append]
    have h1 := dsNext_ledger σs st
    rw [applyEvents] at h1
    rw [h1]
    exact ih (dsNext σs st).2.1

lemma handleLedger_le_one (st : ShardedCSVDataset) :
    (handleLedger st).length ≤ 1 := by
  rcases h : st.curr_file with _ | f
  · simp [handleLedger, h]
  · by_cases ho : f.isOpen <;> simp [handleLedger, h, ho]

/-- C8 (amended): along any run of next() calls (no reset interleaved), the
set of open shard-file handles is exactly the reader's current handle when
that handle is open, and empty otherwise - in particular at most one shard
file is open at every point, and each transition closes the previous
shard's handle (its close event precedes the next open event). The claim's
further guarantee - release even when materialization fails - does not
hold: see the counterexample. -/
theorem c8_amended (σfiles : List ShardFile → List ShardFile)
    (files : List ShardFile) (sh : Bool)
    (σs : Nat → List (String × String) → List (String × String)) (n : Nat) :
    applyEvents [] (steps σs n (mkShardedCSVDataset σfiles files sh)).2.2
      = handleLedger (steps σs n (mkShardedCSVDataset σfiles files sh)).2.1 ∧
    (applyEvents [] (steps σs n (mkShardedCSVDataset σfiles files sh)).2.2).length
      ≤ 1 := by
  have h0 : handleLedger (mkShardedCSVDataset σfiles files sh) = [] := rfl
  have h1 := steps_ledger σs n (mkShardedCSVDataset σfiles files sh)
  rw [h0] at h1
  exact ⟨h1, h1 ▸ handleLedger_le_one _⟩

/-- C8 counterexample: a shard whose single line parses to a zero-field row.
Materializing it fails with IndexError, and at the moment the error
propagates the newly opened shard handle "p" is still open - it was not
released - so the guaranteed-release part of the claim is false. -/
theorem c8_counterexample :
    (steps (fun _ l => l) 1 (mkShardedCSVDataset id [⟨"p", 1, [[]]⟩] false)).1
      = [.err .indexError] ∧
    (steps (fun _ l => l) 1
      (mkShardedCSVDataset id [⟨"p", 1, [[]]⟩] false)).2.1.curr_file
      = some ⟨"p", true⟩ ∧
    applyEvents [] (steps (fun _ l => l) 1
      (mkShardedCSVDataset id [⟨"p", 1, [[]]⟩] false)).2.2 = ["p"] := by
  decide

/-- The pre-scanned line count of the current shard, as the code reads it:
file_counts[curr_file_name] (0 when no shard is current). -/
def currCount (st : ShardedCSVDataset) : Nat :=
  match st.curr_file_name with
  | none => 0
  | some nm => (pyDictLookup st.file_counts nm).getD 0

/-- The index invariant claimed by the spec: shard index within [-1, N],
in-shard row index within [0, line count of the current shard]. -/
def dsInv (N : Nat) (st : ShardedCSVDataset) : Prop :=
  -1 ≤ st.shard_idx ∧ st.shard_idx ≤ (N : Int) ∧ st.curr_idx ≤ currCount st

lemma pyListGet_mem {α : Type} (l : List α) (i : Int) (x : α)
    (h : pyListGet l i = some x) : x ∈ l := by
  unfold pyListGet at h
  split at h
  · exact List.get?_mem h
  · simp only at h
    split at h
    · exact List.get?_mem h
    · cases h


lemma currCount_pos (files : List ShardFile) (file : ShardFile)
    (rows : List (String × String))
    (hnd : (files.map ShardFile.path).Nodup)
    (hp : ∀ f ∈ files, f.parsed.length ≤ f.numLines)
    (hmem : file ∈ files)
    (hm : materialize (csvRows file) = .ok rows)
    (hne : rows.length ≠ 0) :
    1 ≤ (pyDictLookup (pyDictOf (files.map fun f => (f.path, get_num_lines f)))
      file.path).getD 0 := by
  rw [pyDictLookup_counts files file hnd hmem]
  have h1 := materialize_ok_length (csvRows file) rows hm
  have h2 := hp file hmem
  simp only [csvRows] at h1
  simp only [Option.getD_some]
  omega

set_option maxHeartbeats 1000000 in
lemma advanceShard_inv (σs : Nat → List (String × String) → List (String × String))
    (files : List ShardFile) (st : ShardedCSVDataset)
    (hsf : st.sharded_files = files)
    (hfc : st.file_counts = pyDictOf (files.map fun f => (f.path, get_num_lines f)))
    (hnd : (files.map ShardFile.path).Nodup)
    (hp : ∀ f ∈ files, f.parsed.length ≤ f.numLines)
    (hσ : ∀ (i : Nat) (l : List (String × String)), (σs i l).Perm l)
    (hinv : dsInv files.length st) :
    ((advanceShard σs st).1 ≠ .stop →
      dsInv files.length (advanceShard σs st).2.1) ∧
    ((advanceShard σs st).1 = .stop →
      (advanceShard σs st).2.1.shard_idx = st.shard_idx + 1) := by
  obtain ⟨hi1, hi2, hi3⟩ := hinv
  rcases st with ⟨fs, sh, cnts, cf, cfn, ci, cd, si, rc⟩
  simp only at hsf hfc hi1 hi2 hi3
  subst hsf
  subst hfc
  rcases cf with _ | ⟨pp, oo⟩
  case' intro.intro.mk.some.mk => cases oo
  all_goals simp only [advanceShard, closeCurrFile, Bool.false_eq_true,
    eq_self_iff_true, if_true, if_false, ite_true, ite_false]
  all_goals
    by_cases hstop : si + 1 ≥ (fs.length : Int)
    · rw [if_pos hstop]
      refine ⟨fun hne => absurd rfl hne, fun _ => rfl⟩
    · rw [if_neg hstop]
      rcases hg : pyListGet fs (si + 1) with _ | file
      · simp only [hg]
        refine ⟨fun _ => ?_, fun h => nomatch h⟩
        simp only [dsInv]
        exact ⟨by omega, by omega, hi3⟩
      · simp only [hg]
        have hmem := pyListGet_mem fs (si + 1) file hg
        rcases hm : materialize (csvRows file) with e | rows
        · simp only [hm]
          refine ⟨fun _ => ?_, fun h => nomatch h⟩
          simp only [dsInv]
          exact ⟨by omega, by omega, Nat.zero_le _⟩
        · simp only [hm]
          cases sh
          · simp only [Bool.false_eq_true, if_neg, ite_false, fetchRow]
            rcases hr : rows.get? 0 with _ | v
            · simp only [hr]
              refine ⟨fun _ => ?_, fun h => nomatch h⟩
              simp only [dsInv]
              exact ⟨by omega, by omega, Nat.zero_le _⟩
            · simp only [hr]
              refine ⟨fun _ => ?_, fun h => nomatch h⟩
              simp only [dsInv]
              refine ⟨by omega, by omega, ?_⟩
              simp only [currCount]
              refine currCount_pos fs file rows hnd hp hmem hm ?_
              have hv := List.get?_mem hr
              have hlen := List.length_pos_of_mem hv
              omega
          · simp only [ite_true, fetchRow]
            rcases hr : (σs rc rows).get? 0 with _ | v
            · simp only [hr]
              refine ⟨fun _ => ?_, fun h => nomatch h⟩
              simp only [dsInv]
              exact ⟨by omega, by omega, Nat.zero_le _⟩
            · simp only [hr]
              refine ⟨fun _ => ?_, fun h => nomatch h⟩
              simp only [dsInv]
              refine ⟨by omega, by omega, ?_⟩
              simp only [currCount]
              refine currCount_pos fs file rows hnd hp hmem hm ?_
              have hv := List.get?_mem hr
              have hlen := List.length_pos_of_mem hv
              have hpl := (hσ rc rows).length_eq
              omega

lemma dsNext_inv (σs : Nat → List (String × String) → List (String × String))
    (files : List ShardFile) (st : ShardedCSVDataset)
    (hsf : st.sharded_files = files)
    (hfc : st.file_counts = pyDictOf (files.map fun f => (f.path, get_num_lines f)))
    (hnd : (files.map ShardFile.path).Nodup)
    (hp : ∀ f ∈ files, f.parsed.length ≤ f.numLines)
    (hσ : ∀ (i : Nat) (l : List (String × String)), (σs i l).Perm l)
    (hinv : dsInv files.length st) :
    ((dsNext σs st).1 ≠ .stop → dsInv files.length (dsNext σs st).2.1) ∧
    ((dsNext σs st).1 = .stop →
      (dsNext σs st).2.1.shard_idx = st.shard_idx + 1) := by
  rcases hcf : st.curr_file with _ | fh
  · have h := advanceShard_inv σs files st hsf hfc hnd hp hσ hinv
    simp only [dsNext, hcf]
    exact h
  · rcases hcn : st.curr_file_name with _ | nm
    · simp only [dsNext, hcf, hcn]
      exact ⟨fun _ => hinv, fun h => nomatch h⟩
    · rcases hl : pyDictLookup st.file_counts nm with _ | cnt
      · simp only [dsNext, hcf, hcn, hl]
        exact ⟨fun _ => hinv, fun h => nomatch h⟩
      · by_cases hge : st.curr_idx ≥ cnt
        · have h := advanceShard_inv σs files st hsf hfc hnd hp hσ hinv
          simp only [dsNext, hcf, hcn, hl, if_pos hge]
          exact h
        · simp only [dsNext, hcf, hcn, hl, if_neg hge]
          rcases hr : st.curr_data.get? st.curr_idx with _ | v
          · simp only [fetchRow, hr]
            exact ⟨fun _ => hinv, fun h => nomatch h⟩
          · simp only [fetchRow, hr]
            refine ⟨fun _ => ?_, fun h => nomatch h⟩
            obtain ⟨h1, h2, _⟩ := hinv
            refine ⟨h1, h2, ?_⟩
            have hcc : currCount { st with curr_idx := st.curr_idx + 1 } = cnt := by
              simp only [currCount, hcn, hl, Option.getD_some]
            show st.curr_idx + 1 ≤ currCount { st with curr_idx := st.curr_idx + 1 }
            rw [hcc]
            omega

set_option maxHeartbeats 1000000 in
lemma dsNext_stop_shard_idx
    (σs : Nat → List (String × String) → List (String × String))
    (st : ShardedCSVDataset) (h : (dsNext σs st).1 = .stop) :
    (dsNext σs st).2.1.shard_idx = st.shard_idx + 1 := by
  rcases st with ⟨fs, sh, cnts, cf, cfn, ci, cd, si, rc⟩
  rcases cf with _ | ⟨p, o⟩ <;> cases sh <;> [skip; skip; cases o; cases o] <;>
    simp only [dsNext, advanceShard, closeCurrFile, fetchRow] at h ⊢ <;>
    (repeat' split at h) <;> (repeat' split) <;> simp_all

lemma steps_inv (σs : Nat → List (String × String) → List (String × String))
    (files : List ShardFile)
    (hnd : (files.map ShardFile.path).Nodup)
    (hp : ∀ f ∈ files, f.parsed.length ≤ f.numLines)
    (hσ : ∀ (i : Nat) (l : List (String × String)), (σs i l).Perm l) :
    ∀ (n : Nat) (st : ShardedCSVDataset),
    st.sharded_files = files →
    st.file_counts = pyDictOf (files.map fun f => (f.path, get_num_lines f)) →
    dsInv files.length st →
    .stop ∉ (steps σs n st).1 → dsInv files.length (steps σs n st).2.1 := by
  intro n
  induction n with
  | zero =>
    intro st _ _ hinv _
    exact hinv
  | succ n ih =>
    intro st hsf hfc hinv hns
    simp only [steps, List.mem_cons, not_or] at hns
    obtain ⟨hns1, hns2⟩ := hns
    have hstep := dsNext_inv σs files st hsf hfc hnd hp hσ hinv
    have hstat := dsNext_static σs st
    simp only [steps]
    exact ih (dsNext σs st).2.1
      (by rw [hstat.1.1, hsf])
      (by rw [hstat.1.2.1, hfc])
      (hstep.1 (fun hc => hns1 hc.symm))
      hns2

/-- C9 (amended): over well-formed-countable shards (each shard's parsed
row count at most its line count, paths distinct), every run of next()
calls that has not yet signalled end-of-stream keeps the shard index in
[-1, N] and the in-shard row index in [0, line count of the current
shard]; but any call that signals end-of-stream - including every call
made after end-of-stream was already signalled - increments the shard
index by one, so after the first end-of-stream the index grows past N
without bound. -/
theorem c9_amended (files : List ShardFile)
    (σfiles : List ShardFile → List ShardFile) (sh : Bool)
    (σs : Nat → List (String × String) → List (String × String)) (n : Nat)
    (hσf : ∀ l : List ShardFile, (σfiles l).Perm l)
    (hσ : ∀ (i : Nat) (l : List (String × String)), (σs i l).Perm l)
    (hnd : (files.map ShardFile.path).Nodup)
    (hp : ∀ f ∈ files, f.parsed.length ≤ f.numLines) :
    (.stop ∉ (steps σs n (mkShardedCSVDataset σfiles files sh)).1 →
      dsInv files.length (steps σs n (mkShardedCSVDataset σfiles files sh)).2.1) ∧
    (∀ st : ShardedCSVDataset, (dsNext σs st).1 = .stop →
      (dsNext σs st).2.1.shard_idx = st.shard_idx + 1) := by
  have hperm : (if sh then σfiles files else files).Perm files := by
    cases sh
    · simp
    · simpa using hσf files
  have hnd' : ((if sh then σfiles files else files).map ShardFile.path).Nodup :=
    ((hperm.map ShardFile.path).nodup_iff).mpr hnd
  have hp' : ∀ f ∈ (if sh then σfiles files else files),
      f.parsed.length ≤ f.numLines :=
    fun f hf => hp f (hperm.mem_iff.mp hf)
  have hlen : (if sh then σfiles files else files).length = files.length :=
    hperm.length_eq
  constructor
  · intro hns
    have h0 : dsInv (if sh then σfiles files else files).length
        (mkShardedCSVDataset σfiles files sh) := by
      unfold dsInv
      refine ⟨?_, ?_, ?_⟩
      · show (-1 : Int) ≤ -1
        omega
      · show (-1 : Int) ≤ ((if sh then σfiles files else files).length : Int)
        omega
      · show (0 : Nat) ≤ currCount (mkShardedCSVDataset σfiles files sh)
        exact Nat.zero_le _
    have h := steps_inv σs (if sh then σfiles files else files) hnd' hp' hσ n
      (mkShardedCSVDataset σfiles files sh) rfl rfl h0 hns
    rwa [hlen] at h
  · exact fun st h => dsNext_stop_shard_idx σs st h

/-- C9 witness: one well-formed one-line shard, a run of one call (no
end-of-stream yet): the invariant holds at the resulting state, and the
stop-increment fact is applied to the drained two-call state. -/
theorem c9_witness :
    (.stop ∉ (steps (fun _ l => l) 1
        (mkShardedCSVDataset id [⟨"a", 1, [["x", "y"]]⟩] false)).1 →
      dsInv ([(⟨"a", 1, [["x", "y"]]⟩ : ShardFile)]).length
        (steps (fun _ l => l) 1
          (mkShardedCSVDataset id [⟨"a", 1, [["x", "y"]]⟩] false)).2.1) ∧
    (∀ st : ShardedCSVDataset, (dsNext (fun _ l => l) st).1 = .stop →
      (dsNext (fun _ l => l) st).2.1.shard_idx = st.shard_idx + 1) :=
  c9_amended [⟨"a", 1, [["x", "y"]]⟩] id false (fun _ l => l) 1
    (fun l => List.Perm.refl l) (fun _ l => List.Perm.refl l)
    (by decide) (by decide)

/-- C9 counterexample: an empty shard directory (N = 0). The first next()
call signals end-of-stream with shard index 0; the second call - made
after end-of-stream - increments the shard index to 1 > N, violating the
claimed range [-1, N] for calls made after exhaustion. -/
theorem c9_counterexample :
    (steps (fun _ l => l) 2 (mkShardedCSVDataset id [] false)).1
      = [.stop, .stop] ∧
    (steps (fun _ l => l) 2 (mkShardedCSVDataset id [] false)).2.1.shard_idx = 1 ∧
    ¬ ((steps (fun _ l => l) 2 (mkShardedCSVDataset id [] false)).2.1.shard_idx
        ≤ (([] : List ShardFile).length : Int)) := by
  refine ⟨by decide, by decide, by decide⟩

lemma dsNext_init_err_nil
    (σs : Nat → List (String × String) → List (String × String))
    (f0 : ShardFile) (rest : List ShardFile) (counts : List (String × Nat))
    (hmat : materialize (csvRows f0) = .ok []) :
    dsNext σs
      { sharded_files := f0 :: rest, shuffle := false, file_counts := counts,
        curr_file := none, curr_file_name := none, curr_idx := 0,
        curr_data := [], shard_idx := -1, rngCtr := 0 } =
      (.err .indexError,
       { sharded_files := f0 :: rest, shuffle := false, file_counts := counts,
         curr_file := some ⟨f0.path, true⟩, curr_file_name := some f0.path,
         curr_idx := 0, curr_data := [], shard_idx := 0, rngCtr := 0 },
       [.openedF f0.path]) := by
  have hget0 : pyListGet (f0 :: rest) 0 = some f0 := by
    rw [show (0 : Int) = ((0 : Nat) : Int) from rfl, pyListGet_nat]
    rfl
  have hpos : ¬ ((rest.length : Int) + 1 ≤ 0) := by omega
  simp only [dsNext, advanceShard, closeCurrFile, fetchRow]
  simp [hget0, hpos, hmat]

/-- C10 (confirmed): ShardedCSVDataset.__next__ decides shard exhaustion by
comparing the in-shard row index to the shard's pre-scanned physical line
count, not to the number of rows the csv parser actually materialized: for
every leading shard whose parsed row count is smaller than its line count
(all rows two-field so parsing succeeds), the run serves exactly the parsed
rows and then the next call indexes the materialized row list out of range,
raising IndexError instead of advancing to the next shard or signalling
end-of-stream. -/
theorem c10_short_shard (f : ShardFile) (rest : List ShardFile)
    (hnd : (((f :: rest)).map ShardFile.path).Nodup)
    (hrows : ∀ r ∈ f.parsed, 2 ≤ r.length)
    (hlt : f.parsed.length < f.numLines) :
    (steps (fun _ l => l) (f.parsed.length + 1)
        (mkShardedCSVDataset id (f :: rest) false)).1
      = (pairsOf f).map .ok ++ [.err .indexError] := by
  have hmat : materialize (csvRows f) = .ok (pairsOf f) := by
    rw [csvRows, materialize_wf f.parsed hrows]
    rfl
  have hcnt : pyDictLookup (pyDictOf ((f :: rest).map
      fun g => (g.path, get_num_lines g))) f.path = some f.numLines :=
    pyDictLookup_counts (f :: rest) f hnd (by simp)
  have hmk : mkShardedCSVDataset id (f :: rest) false =
      { sharded_files := f :: rest, shuffle := false,
        file_counts := pyDictOf ((f :: rest).map fun g => (g.path, get_num_lines g)),
        curr_file := none, curr_file_name := none, curr_idx := 0,
        curr_data := [], shard_idx := -1, rngCtr := 0 } := rfl
  have hplen : (pairsOf f).length = f.parsed.length := pairsOf_length f
  rw [hmk]
  rcases hpe : f.parsed with _ | ⟨r0, rs⟩
  · have hmat0 : materialize (csvRows f) = .ok [] := by
      rw [hmat]
      simp [pairsOf, hpe]
    simp only [hpe, List.length_nil, Nat.zero_add]
    rw [steps_one, dsNext_init_err_nil (fun _ l => l) f rest _ hmat0]
    simp [pairsOf, hpe]
  · have hlen0 : 0 < (pairsOf f).length := by
      rw [hplen, hpe]
      simp
    have he : (if false then (fun _ l => l) 0 (pairsOf f) else (pairsOf f)).get? 0
        = some ((pairsOf f).get ⟨0, hlen0⟩) := by
      simp only [Bool.false_eq_true, if_neg, ite_false]
      exact List.get?_eq_get hlen0
    have hcount : (r0 :: rs).length + 1 = 1 + (((pairsOf f).length - 1) + 1) := by
      rw [hplen, hpe]
      simp only [List.length_cons]
      omega
    rw [hcount, steps_add, steps_one]
    rw [dsNext_init_ok (fun _ l => l) f rest false _ (pairsOf f) _ hmat he]
    rw [steps_add, steps_one]
    have hmid := steps_mid_fetch (fun _ l => l) [] f rest false
      (pyDictOf ((f :: rest).map fun g => (g.path, get_num_lines g))) 0 hcnt
      ((pairsOf f).length - 1) 1 (pairsOf f) (by omega) (by omega)
    simp only [if_neg, Bool.false_eq_true, ite_false] at hmid ⊢
    rw [hmid]
    have hfull : 1 + ((pairsOf f).length - 1) = (pairsOf f).length := by omega
    rw [hfull]
    rw [dsNext_mid_overrun (fun _ l => l) [] f rest false
      (pyDictOf ((f :: rest).map fun g => (g.path, get_num_lines g))) 0
      (pairsOf f) (pairsOf f).length hcnt (by omega) (by omega)]
    have htake : ((pairsOf f).drop 1).take ((pairsOf f).length - 1)
        = (pairsOf f).drop 1 := by
      apply List.take_of_length_le
      simp
    rw [htake]
    have hcons : ((pairsOf f).get ⟨0, hlen0⟩) :: ((pairsOf f).drop 1)
        = pairsOf f := by
      have h2 := List.getElem_cons_drop (pairsOf f) 0 hlen0
      simpa using h2
    conv_rhs => rw [← hcons]
    simp

/-- C10 witness: a shard with 2 pre-scanned lines but a single parsed
two-field row: the first call returns the row, the second raises
IndexError while the shard is still current. -/
theorem c10_witness :
    (steps (fun _ l => l)
        ((⟨"s", 2, [["a", "b"]]⟩ : ShardFile).parsed.length + 1)
        (mkShardedCSVDataset id [⟨"s", 2, [["a", "b"]]⟩] false)).1
      = (pairsOf ⟨"s", 2, [["a", "b"]]⟩).map .ok ++ [.err .indexError] :=
  c10_short_shard ⟨"s", 2, [["a", "b"]]⟩ [] (by decide) (by decide) (by decide)
